import Mathlib

/-!
Shallow embedding of `mozdefevents` (src/main.go), a command-line search
client for a MozDef/Elasticsearch event store.  Go `time.Time` values are
represented as UTC Unix timestamps in seconds (`Nat`); a calendar day is
the number of whole days since the epoch (`t / 86400`), which is exactly
the quantity Go's `Format("20060102")` renders (the date format is
injective on days, so day numbers and `events-YYYYMMDD` names are in
bijection).  Go maps that the program populates with a fixed small set of
keys are represented as association lists in insertion order.  The
Elasticsearch transport (elastigo) is an external collaborator; it is
modelled as a function from request parameters to a decoded page of
documents or an error, exactly the interface `runQueryIndex` consumes.
-/

namespace Mozdefevents

/-- Fixed page size, Go `const docsPerSearch int = 100`. -/
def docsPerSearch : Nat := 100

/-- The nested `Details` struct of Go's `event` type (src/main.go:101-114). -/
structure eventDetails where
  Hostname : String
  Command : String
  DHost : String
  DProc : String
  DUser : String
  SUser : String
  Fname : String
  Name : String
  ProcessName : String
  OriginalUser : String
  User : String
  Path : String
deriving DecidableEq, Repr

/-- Go's `event` struct (src/main.go:95-115).  The two `time.Time` fields
only pass through the program unchanged and are printed with `%v`; they are
represented by their rendered strings. -/
structure event where
  Category : String
  Hostname : String
  Timestamp : String
  UTCTimestamp : String
  Summary : String
  Details : eventDetails
deriving DecidableEq, Repr

/-- Go `strings.Trim(s, cutset)`: removes leading and trailing characters
contained in `cutset`. -/
def stringsTrim (s : String) (cutset : String) : String :=
  String.mk (((s.data.dropWhile (cutset.data.contains ·)).reverse.dropWhile
    (cutset.data.contains ·)).reverse)

/-- `(*event).normalize` (src/main.go:117-139), the field-fallback pass.
The Go method mutates in place and always returns `nil`; it is embedded as
a pure function. -/
def event.normalize (e : event) : event :=
  let e := if e.Hostname = "" ∧ e.Details.DHost ≠ ""
    then { e with Hostname := e.Details.DHost } else e
  let e := if e.Details.User = "" ∧ e.Details.DUser ≠ ""
    then { e with Details.User := e.Details.DUser } else e
  let e := if e.Details.Path = "" ∧ e.Details.Fname ≠ ""
    then { e with Details.Path := e.Details.Fname } else e
  let e := if e.Details.OriginalUser = "" ∧ e.Details.SUser ≠ ""
    then { e with Details.OriginalUser := e.Details.SUser } else e
  let e := if e.Details.ProcessName = "" ∧ e.Details.DProc ≠ ""
    then { e with Details.ProcessName := e.Details.DProc } else e
  let e := if e.Details.Name = "Unix Exec"
    then { e with Category := "execve" } else e
  { e with Summary := stringsTrim e.Summary " \n" }

/-- Proleptic-Gregorian civil date from days since 1970-01-01
(the standard era-based conversion, as performed by Go's `time`
package when formatting a UTC instant): returns (year, month, day). -/
def civilFromDays (z : Nat) : Nat × Nat × Nat :=
  let z := z + 719468
  let era := z / 146097
  let doe := z % 146097
  let yoe := (doe - doe / 1460 + doe / 36524 - doe / 146096) / 365
  let y := yoe + era * 400
  let doy := doe - (365 * yoe + yoe / 4 - yoe / 100)
  let mp := (5 * doy + 2) / 153
  let d := doy - (153 * mp + 2) / 5 + 1
  let m := if mp < 10 then mp + 3 else mp - 9
  (if m ≤ 2 then y + 1 else y, m, d)

/-- Zero-pad a numeral to two digits. -/
def pad2 (n : Nat) : String :=
  if n < 10 then "0" ++ toString n else toString n

/-- Zero-pad a numeral to four digits (Go year field `2006`). -/
def pad4 (n : Nat) : String :=
  if n < 10 then "000" ++ toString n
  else if n < 100 then "00" ++ toString n
  else if n < 1000 then "0" ++ toString n
  else toString n

/-- Go `t.Format(time.RFC3339)` for a UTC instant `t` given in whole
seconds since the epoch: `YYYY-MM-DDTHH:MM:SSZ`. -/
def rfc3339 (t : Nat) : String :=
  let ymd := civilFromDays (t / 86400)
  let secs := t % 86400
  pad4 ymd.1 ++ "-" ++ pad2 ymd.2.1 ++ "-" ++ pad2 ymd.2.2 ++ "T" ++
    pad2 (secs / 3600) ++ ":" ++ pad2 (secs % 3600 / 60) ++ ":" ++
    pad2 (secs % 60) ++ "Z"

/-- Go `t.Format("20060102")` applied to the day numbered `day`. -/
def formatYYYYMMDD (day : Nat) : String :=
  let ymd := civilFromDays day
  pad4 ymd.1 ++ pad2 ymd.2.1 ++ pad2 ymd.2.2

/-- The relevant fields of Go's global `config` (src/main.go:23-32):
start/end timestamps (UTC seconds) and the hostname match pattern.
`eshost` and the accumulated `results` slice are threaded explicitly
through the run functions below. -/
structure config where
  startDate : Nat
  endDate : Nat
  hostmatch : String
deriving DecidableEq, Repr

/-- Go's `queryCriteria` struct (src/main.go:34-39).  Each Go map is an
association list in insertion order; `omitempty` semantics live in the
serializer. -/
structure queryCriteria where
  QueryString : List (String × String)
  Term : List (String × String)
  Match : List (String × String)
  Range : List (String × List (String × String))
deriving DecidableEq, Repr

/-- The anonymous `Bool` struct inside Go's `queryContainer`
(src/main.go:45-51). -/
structure queryBool where
  Must : List queryCriteria
  Should : List queryCriteria
  MinShouldMatch : Nat
deriving DecidableEq, Repr

/-- Go's `queryContainer` struct (src/main.go:41-52); the intermediate
anonymous `Query` struct holding only `Bool` is flattened to the field
`Query : queryBool` (the extra `bool` wrapper reappears in the JSON
serializer). -/
structure queryContainer where
  From : Nat
  Size : Nat
  Sort' : List (String × String)
  Query : queryBool
deriving DecidableEq, Repr

/-- The range clause `defaultSettings` always appends to the must list
(src/main.go:62-67). -/
def rangeClause (cfg : config) : queryCriteria :=
  ⟨[], [], [],
   [("utctimestamp",
     [("gte", rfc3339 cfg.startDate), ("lte", rfc3339 cfg.endDate)])]⟩

/-- One `query_string` should-clause (src/main.go:70-83). -/
def queryStringClause (q : String) : queryCriteria :=
  ⟨[("query", q)], [], [], []⟩

/-- `(*queryContainer).defaultSettings` (src/main.go:54-86).  The Go
method fills a zero-valued container and never fails; it is embedded as a
pure constructor of the resulting container. -/
def defaultSettings (cfg : config) : queryContainer :=
  { From := 0
    Size := docsPerSearch
    Sort' := [("utctimestamp", "asc")]
    Query :=
      { MinShouldMatch := 1
        Must := [rangeClause cfg]
        Should :=
          if cfg.hostmatch = "" then []
          else
            [queryStringClause ("hostname: /" ++ cfg.hostmatch ++ "/"),
             queryStringClause ("details.dhost: /" ++ cfg.hostmatch ++ "/"),
             queryStringClause ("details.hostname: /" ++ cfg.hostmatch ++ "/")] } }

/-- `(*queryContainer).addMatch` (src/main.go:88-93): appends a
single-entry match clause to the must list. -/
def addMatch (q : queryContainer) (key val : String) : queryContainer :=
  { q with Query.Must := q.Query.Must ++ [⟨[], [], [(key, val)], []⟩] }

/-- `buildAuditSearch` (src/main.go:337-345). -/
def buildAuditSearch (cfg : config) : queryContainer :=
  addMatch (defaultSettings cfg) "_type" "auditd"

/-- `buildSyslogSearch` (src/main.go:347-356). -/
def buildSyslogSearch (cfg : config) : queryContainer :=
  addMatch (addMatch (defaultSettings cfg) "_type" "event") "category" "syslog"

/-- Index name for the day numbered `day` (src/main.go:279). -/
def indexName (day : Nat) : String :=
  "events-" ++ formatYYYYMMDD day

/-- The index-enumeration loop at the top of `runQuery`
(src/main.go:276-296), on day numbers.  Go appends the name
`events-YYYYMMDD` of the cursor `dp`'s day each iteration, advances `dp`
by 24 h while `endDate - dp` is at least 24 h, then appends `endDate`'s
day unless its name already occurs in the list.  Since an index name
determines its day, Go's string-membership dedup test is the
day-membership test used here; `indexName` recovers the name strings. -/
def enumerateIndices (endDate : Nat) (dp : Nat) (indices : List Nat) : List Nat :=
  let indices := indices ++ [dp / 86400]
  if endDate - dp < 86400 then
    let idxe := endDate / 86400
    if idxe ∈ indices then indices else indices ++ [idxe]
  else
    enumerateIndices endDate (dp + 86400) indices
termination_by endDate - dp
decreasing_by omega

/-- The pagination loop of `runQueryIndex` (src/main.go:311-333),
parameterised by the backend collaborator `b` mapping a `from` offset to
a decoded page of documents or a transport/decode error (the elastigo
`Search` call together with the per-hit `json.Unmarshal`).  Returns the
list of offsets at which requests were issued, and the outcome: `none`
when the fuel ran out (the Go loop is unbounded, so every terminating
execution is reproduced by a large enough fuel), `some (.ok evs)` with
the normalized events appended to `cfg.results` in order, or
`some (.error e)` when a request failed. -/
def runQueryIndexLoop (b : Nat → Except String (List event)) :
    Nat → Nat → List Nat × Option (Except String (List event))
  | 0, _ => ([], none)
  | fuel + 1, off =>
    match b off with
    | .error e => ([off], some (.error e))
    | .ok hits =>
      if hits.length = 0 then ([off], some (.ok []))
      else
        let r := runQueryIndexLoop b fuel (off + docsPerSearch)
        (off :: r.1, r.2.map (Except.map (fun evs => hits.map event.normalize ++ evs)))

/-- `runQueryIndex` (src/main.go:306-335): resets `qry.From` to 0 and
runs the pagination loop. -/
def runQueryIndex (b : Nat → Except String (List event)) (fuel : Nat) :
    List Nat × Option (Except String (List event)) :=
  runQueryIndexLoop b fuel 0

/-- The per-index loop at the bottom of `runQuery` (src/main.go:297-303),
parameterised by the per-index fetch collaborator `f` (what
`runQueryIndex` does for one index): returns the indices actually
fetched, in order, and either the first error unchanged or the events
appended across all indices. -/
def runIndices (f : Nat → Except String (List event)) :
    List Nat → List Nat × Except String (List event)
  | [] => ([], .ok [])
  | i :: rest =>
    match f i with
    | .error e => ([i], .error e)
    | .ok evs =>
      let r := runIndices f rest
      (i :: r.1, r.2.map (fun more => evs ++ more))

/-- `runQuery` (src/main.go:275-304): enumerate the day indices of the
configured date range, then fetch each in order, aborting on the first
error. -/
def runQuery (f : Nat → Except String (List event)) (cfg : config) :
    List Nat × Except String (List event) :=
  runIndices f (enumerateIndices cfg.endDate cfg.startDate [])

/-- Go `fmt` `%q` verb: a double-quoted string with the usual escapes. -/
def goQuote (s : String) : String :=
  "\"" ++ String.join (s.data.map fun c =>
    if c = '\\' then "\\\\"
    else if c = '"' then "\\\""
    else if c = '\n' then "\\n"
    else if c = '\t' then "\\t"
    else String.mk [c]) ++ "\""

/-- The event descriptor `evstr` built in the body of `auditResults`
(src/main.go:240-258). -/
def auditEventString (x : event) : String :=
  if x.Category = "execve" then
    let origuser := if x.Details.OriginalUser ≠ "" then x.Details.OriginalUser else "none"
    let evstr := "[execve]" ++ " (" ++ origuser ++ "/" ++ x.Details.User ++ ")"
    let evstr := if x.Details.Command ≠ ""
      then evstr ++ " command:" ++ goQuote x.Details.Command else evstr
    let evstr := if x.Details.DProc ≠ ""
      then evstr ++ " proc:" ++ goQuote x.Details.ProcessName else evstr
    let evstr := if x.Details.Path ≠ ""
      then evstr ++ " path:" ++ goQuote x.Details.Path else evstr
    evstr
  else "unknown audit event"

/-- One output line of `auditResults` (src/main.go:259-260). -/
def auditLine (x : event) : String :=
  x.Timestamp ++ " " ++ x.Hostname ++ " " ++ auditEventString x

/-- `auditResults` (src/main.go:239-262) as the list of printed lines. -/
def auditResults (results : List event) : List String :=
  results.map auditLine

/-- The event descriptor built in the body of `syslogResults`
(src/main.go:266-269). -/
def syslogEventString (x : event) : String :=
  if x.Summary ≠ "" then "[syslog] " ++ x.Summary
  else "[syslog] unknown syslog event"

/-- `syslogResults` (src/main.go:264-273) as the list of printed lines. -/
def syslogResults (results : List event) : List String :=
  results.map (fun x => x.Timestamp ++ " " ++ x.Details.Hostname ++ " " ++ syslogEventString x)

/-- The two run modes selected by the `-a` / `-s` flags. -/
inductive runMode where
  | audit
  | syslog
deriving DecidableEq, Repr

/-- The mode-selection logic of `main` (src/main.go:181-236): the
missing-mode check, then `if *auditmode { … } else if *syslogmode { … }`.
`.ok none` is the (unreachable) fall-through where neither branch runs. -/
def selectMode (auditmode syslogmode : Bool) : Except String (Option runMode) :=
  if !auditmode && !syslogmode then .error "must specify -a or -s"
  else if auditmode then .ok (some .audit)
  else if syslogmode then .ok (some .syslog)
  else .ok none

/-- JSON values, for the `encoding/json` serialization model. -/
inductive jsonVal where
  | num : Nat → jsonVal
  | str : String → jsonVal
  | arr : List jsonVal → jsonVal
  | obj : List (String × jsonVal) → jsonVal

/-- Marshal a `map[string]string` (association list, key order as
produced by the program). -/
def marshalStrMap (m : List (String × String)) : jsonVal :=
  .obj (m.map fun kv => (kv.1, .str kv.2))

/-- `encoding/json` marshaling of `queryCriteria` (src/main.go:34-39):
every field carries `omitempty`, so empty maps are dropped; present
fields appear in declaration order. -/
def marshalCriteria (c : queryCriteria) : jsonVal :=
  .obj ((if c.QueryString = [] then [] else [("query_string", marshalStrMap c.QueryString)]) ++
    (if c.Term = [] then [] else [("term", marshalStrMap c.Term)]) ++
    (if c.Match = [] then [] else [("match", marshalStrMap c.Match)]) ++
    (if c.Range = [] then []
     else [("range", .obj (c.Range.map fun kv => (kv.1, marshalStrMap kv.2)))]))

/-- `encoding/json` marshaling of the `bool` object (src/main.go:46-50):
`must` and `should` carry `omitempty` (dropped when empty), while
`minimum_should_match` has no such marker and is always emitted. -/
def marshalBool (b : queryBool) : List (String × jsonVal) :=
  (if b.Must = [] then [] else [("must", .arr (b.Must.map marshalCriteria))]) ++
  (if b.Should = [] then [] else [("should", .arr (b.Should.map marshalCriteria))]) ++
  [("minimum_should_match", .num b.MinShouldMatch)]

/-- `encoding/json` marshaling of a whole `queryContainer`
(src/main.go:41-52). -/
def marshalContainer (q : queryContainer) : jsonVal :=
  .obj [("from", .num q.From), ("size", .num q.Size),
    ("sort", marshalStrMap q.Sort'),
    ("query", .obj [("bool", .obj (marshalBool q.Query))])]

end Mozdefevents

namespace Mozdefevents

/-- Characterization of `event.normalize`: each field of the result as an
explicit function of the raw fields. -/
theorem normalize_eq (e : event) : e.normalize =
    { Category := if e.Details.Name = "Unix Exec" then "execve" else e.Category
      Hostname := if e.Hostname = "" ∧ e.Details.DHost ≠ "" then e.Details.DHost else e.Hostname
      Timestamp := e.Timestamp
      UTCTimestamp := e.UTCTimestamp
      Summary := stringsTrim e.Summary " \n"
      Details :=
        { Hostname := e.Details.Hostname
          Command := e.Details.Command
          DHost := e.Details.DHost
          DProc := e.Details.DProc
          DUser := e.Details.DUser
          SUser := e.Details.SUser
          Fname := e.Details.Fname
          Name := e.Details.Name
          ProcessName := if e.Details.ProcessName = "" ∧ e.Details.DProc ≠ ""
            then e.Details.DProc else e.Details.ProcessName
          OriginalUser := if e.Details.OriginalUser = "" ∧ e.Details.SUser ≠ ""
            then e.Details.SUser else e.Details.OriginalUser
          User := if e.Details.User = "" ∧ e.Details.DUser ≠ ""
            then e.Details.DUser else e.Details.User
          Path := if e.Details.Path = "" ∧ e.Details.Fname ≠ ""
            then e.Details.Fname else e.Details.Path } } := by
  obtain ⟨cat, host, ts, utc, sum, det⟩ := e
  obtain ⟨dh, cmd, dhost, dproc, duser, suser, fname, nm, pname, ouser, user, path⟩ := det
  by_cases h1 : host = "" ∧ dhost ≠ "" <;>
    by_cases h2 : user = "" ∧ duser ≠ "" <;>
    by_cases h3 : path = "" ∧ fname ≠ "" <;>
    by_cases h4 : ouser = "" ∧ suser ≠ "" <;>
    by_cases h5 : pname = "" ∧ dproc ≠ "" <;>
    by_cases h6 : nm = "Unix Exec" <;>
    simp [event.normalize, h1, h2, h3, h4, h5, h6]

theorem dropWhile_eq_self_of_head {α : Type} (p : α → Bool) (l : List α)
    (h : ∀ a ∈ l.head?, p a = false) : l.dropWhile p = l := by
  cases l with
  | nil => rfl
  | cons a t =>
    have := h a (by simp)
    simp [List.dropWhile_cons, this]

theorem head?_append_of_ne_nil {α : Type} (l t : List α) (h : l ≠ []) :
    (l ++ t).head? = l.head? := by
  cases l with
  | nil => exact absurd rfl h
  | cons a s => simp

theorem stringsTrim_idem (s cutset : String) :
    stringsTrim (stringsTrim s cutset) cutset = stringsTrim s cutset := by
  unfold stringsTrim
  congr 1
  show List.rdropWhile _ (List.dropWhile _ (List.rdropWhile _ (List.dropWhile _ s.data))) =
    List.rdropWhile _ (List.dropWhile _ s.data)
  have hB : List.dropWhile (fun c => cutset.data.contains c)
      (List.rdropWhile (fun c => cutset.data.contains c)
        (List.dropWhile (fun c => cutset.data.contains c) s.data)) =
      List.rdropWhile (fun c => cutset.data.contains c)
        (List.dropWhile (fun c => cutset.data.contains c) s.data) := by
    apply dropWhile_eq_self_of_head
    intro a ha
    rw [Option.mem_def] at ha
    obtain ⟨t, htt⟩ := List.rdropWhile_prefix (fun c => cutset.data.contains c)
      (List.dropWhile (fun c => cutset.data.contains c) s.data)
    have hne : List.rdropWhile (fun c => cutset.data.contains c)
        (List.dropWhile (fun c => cutset.data.contains c) s.data) ≠ [] := by
      intro hnil
      rw [hnil] at ha
      simp at ha
    have h1 : (List.rdropWhile (fun c => cutset.data.contains c)
        (List.dropWhile (fun c => cutset.data.contains c) s.data) ++ t).head? = some a := by
      rw [head?_append_of_ne_nil _ _ hne]
      exact ha
    rw [htt] at h1
    have h2 := List.head?_dropWhile_not (fun c => cutset.data.contains c) s.data
    rw [h1] at h2
    simpa using h2
  rw [hB, List.rdropWhile_idempotent]

/-- C7: `normalize` is idempotent. -/
theorem claim_C7_normalize_idempotent (e : event) :
    e.normalize.normalize = e.normalize := by
  rw [normalize_eq e, normalize_eq]
  simp only [event.mk.injEq, eventDetails.mk.injEq]
  and_intros <;> first
  | trivial
  | exact stringsTrim_idem _ _
  | (split_ifs <;> simp_all)

end Mozdefevents

namespace Mozdefevents

/-- Raw document refuting claim C3: every field empty except
`details.suser = "bob"`. -/
def c3raw : event :=
  ⟨"", "", "", "", "", ⟨"", "", "", "", "", "bob", "", "", "", "", "", ""⟩⟩

/-- C3 counterexample: the claim says `normalize` sets `details.user` to
`details.source-user` (`suser`) exactly when `details.user` is empty; on a
raw document whose only non-empty field is `suser = "bob"`, the code
leaves `details.user` empty (the code's fallback source for `user` is
`duser`, not `suser`). -/
theorem claim_C3_counterexample :
    ¬ ((c3raw.normalize).Details.User =
      if c3raw.Details.User = "" then c3raw.Details.SUser else c3raw.Details.User) := by
  decide

/-- C3 (amended): for every raw document, `normalize` sets `details.user`
to `details.duser` (destination-user) when and only when `details.user` is
empty, and sets `details.original-user` to `details.suser` (source-user)
when and only when `details.original-user` is empty — two different raw
source fields, not the same one. -/
theorem claim_C3_amended_user_fallbacks (r : event) :
    ((r.normalize).Details.User =
      if r.Details.User = "" then r.Details.DUser else r.Details.User) ∧
    ((r.normalize).Details.OriginalUser =
      if r.Details.OriginalUser = "" then r.Details.SUser else r.Details.OriginalUser) := by
  rw [normalize_eq]
  constructor <;> dsimp only <;> split_ifs <;> simp_all

/-- The audit-mode execve descriptor as claim C4 words it: each optional
segment included exactly when the corresponding canonical field
(`command`, `process-name`, `path`) is non-empty.  Stated from the claim,
for comparison with the code's `auditEventString`. -/
def claimedAuditEventString (x : event) : String :=
  if x.Category = "execve" then
    "[execve]" ++ " (" ++
      (if x.Details.OriginalUser ≠ "" then x.Details.OriginalUser else "none") ++
      "/" ++ x.Details.User ++ ")" ++
    (if x.Details.Command ≠ "" then " command:" ++ goQuote x.Details.Command else "") ++
    (if x.Details.ProcessName ≠ "" then " proc:" ++ goQuote x.Details.ProcessName else "") ++
    (if x.Details.Path ≠ "" then " path:" ++ goQuote x.Details.Path else "")
  else "unknown audit event"

/-- Raw document refuting claim C4: category `execve` with canonical
`processname = "x"` set in the raw document and `dproc` empty. -/
def c4raw : event :=
  ⟨"execve", "", "", "", "", ⟨"", "", "", "", "", "", "", "", "x", "", "", ""⟩⟩

/-- C4 counterexample: on the normalized event whose canonical
`process-name` is non-empty but whose raw `dproc` is empty, the code omits
the ` proc:"..."` segment (its guard is `dproc`, src/main.go:252), while
the claim's descriptor includes it. -/
theorem claim_C4_counterexample :
    auditEventString (c4raw.normalize) ≠ claimedAuditEventString (c4raw.normalize) := by
  decide

/-- C4 (amended): for every event rendered in audit mode with category
"execve", the descriptor is `[execve] (<original-user-or-"none">/<user>)`
followed by optional ` command:"..."`, ` proc:"..."`, ` path:"..."`
segments; the command and path segments are included exactly when
`command` / `path` are non-empty, but the proc segment is included exactly
when the raw `details.dproc` field is non-empty (it then prints the
canonical `process-name`). -/
theorem claim_C4_amended_descriptor (x : event) (h : x.Category = "execve") :
    auditEventString x =
      "[execve]" ++ " (" ++
        (if x.Details.OriginalUser ≠ "" then x.Details.OriginalUser else "none") ++
        "/" ++ x.Details.User ++ ")" ++
      (if x.Details.Command ≠ "" then " command:" ++ goQuote x.Details.Command else "") ++
      (if x.Details.DProc ≠ "" then " proc:" ++ goQuote x.Details.ProcessName else "") ++
      (if x.Details.Path ≠ "" then " path:" ++ goQuote x.Details.Path else "") := by
  simp only [auditEventString, h, if_true, ite_true, if_pos]
  split_ifs <;>
    simp only [String.append_assoc, String.append_empty, String.empty_append]

/-- The concrete event of claim C4: command "ls -la", user "root",
original-user empty. -/
def c4ex : event :=
  ⟨"execve", "host1", "ts", "ts", "",
   ⟨"", "ls -la", "", "", "", "", "", "", "", "", "root", ""⟩⟩

/-- Witness for C4 (amended) at `c4ex`: the hypothesis holds and the
descriptor works out to a line containing `(none/root)` and
`command:"ls -la"`. -/
theorem claim_C4_amended_descriptor_witness :
    c4ex.Category = "execve" ∧
    (auditEventString c4ex =
      "[execve]" ++ " (" ++
        (if c4ex.Details.OriginalUser ≠ "" then c4ex.Details.OriginalUser else "none") ++
        "/" ++ c4ex.Details.User ++ ")" ++
      (if c4ex.Details.Command ≠ "" then " command:" ++ goQuote c4ex.Details.Command else "") ++
      (if c4ex.Details.DProc ≠ "" then " proc:" ++ goQuote c4ex.Details.ProcessName else "") ++
      (if c4ex.Details.Path ≠ "" then " path:" ++ goQuote c4ex.Details.Path else "")) ∧
    auditEventString c4ex = "[execve] (none/root) command:\"ls -la\"" :=
  ⟨rfl, claim_C4_amended_descriptor c4ex rfl, by decide⟩


/-- C5: for every criteria input, the built query's should-list is empty
when the hostname pattern is empty, and consists of exactly the three
query-string clauses `hostname: /p/`, `details.dhost: /p/`,
`details.hostname: /p/` when the pattern `p` is non-empty, with
minimum-should-match 1; `buildAuditSearch`/`buildSyslogSearch` leave the
should-list unchanged. -/
theorem claim_C5_should_clauses (cfg : config) :
    ((defaultSettings cfg).Query.Should =
      if cfg.hostmatch = "" then []
      else [queryStringClause ("hostname: /" ++ cfg.hostmatch ++ "/"),
            queryStringClause ("details.dhost: /" ++ cfg.hostmatch ++ "/"),
            queryStringClause ("details.hostname: /" ++ cfg.hostmatch ++ "/")]) ∧
    (defaultSettings cfg).Query.MinShouldMatch = 1 ∧
    ((defaultSettings cfg).Query.Should.length =
      if cfg.hostmatch = "" then 0 else 3) ∧
    (buildAuditSearch cfg).Query.Should = (defaultSettings cfg).Query.Should ∧
    (buildSyslogSearch cfg).Query.Should = (defaultSettings cfg).Query.Should := by
  refine ⟨rfl, rfl, ?_, rfl, rfl⟩
  dsimp only [defaultSettings]
  split_ifs <;> rfl

/-- C6: for every criteria input, the must-list starts with the inclusive
RFC3339 range clause on `utctimestamp`, followed in audit mode by exactly
the single match clause `_type = auditd`, and in syslog mode by exactly
the two match clauses `_type = event` and `category = syslog`. -/
theorem claim_C6_must_clauses (cfg : config) :
    (buildAuditSearch cfg).Query.Must =
      [rangeClause cfg, ⟨[], [], [("_type", "auditd")], []⟩] ∧
    (buildSyslogSearch cfg).Query.Must =
      [rangeClause cfg, ⟨[], [], [("_type", "event")], []⟩,
       ⟨[], [], [("category", "syslog")], []⟩] ∧
    (rangeClause cfg).Range =
      [("utctimestamp",
        [("gte", rfc3339 cfg.startDate), ("lte", rfc3339 cfg.endDate)])] := by
  exact ⟨rfl, rfl, rfl⟩

/-- C9: the serialized `bool` object always carries
`minimum_should_match = 1` (the Go struct field has no `omitempty`
marker), in both modes, and carries a `should` key exactly when the
hostname pattern is non-empty — so a query with an empty should-list
still states a minimum-should-match threshold of 1. -/
theorem claim_C9_min_should_match_serialized (cfg : config) :
    (marshalBool (buildAuditSearch cfg).Query).lookup "minimum_should_match" =
      some (jsonVal.num 1) ∧
    (marshalBool (buildSyslogSearch cfg).Query).lookup "minimum_should_match" =
      some (jsonVal.num 1) ∧
    ("should" ∈ (marshalBool (buildAuditSearch cfg).Query).map Prod.fst ↔
      cfg.hostmatch ≠ "") := by
  by_cases hm : cfg.hostmatch = "" <;>
    simp [marshalBool, buildAuditSearch, buildSyslogSearch, addMatch,
      defaultSettings, hm, List.lookup]

/-- C10: `main` reports the missing-mode configuration error exactly when
neither `-a` nor `-s` is set, and with both flags set it runs the audit
branch (the syslog branch is never reached). -/
theorem claim_C10_mode_selection :
    (∀ a s : Bool,
      selectMode a s = .error "must specify -a or -s" ↔ (a = false ∧ s = false)) ∧
    selectMode true true = .ok (some runMode.audit) := by
  constructor
  · intro a s
    cases a <;> cases s <;> simp [selectMode]
  · rfl


/-- Invariant of the enumeration loop: run from cursor `dp ≤ endT` with an
accumulator whose entries all lie strictly below `dp`'s day, the loop
appends a strictly ascending block of days starting at `dp`'s day and
ending at `endT`'s day. -/
theorem enumerateIndices_spec (endT dp : Nat) (acc : List Nat)
    (hle : dp ≤ endT) (hacc : ∀ a ∈ acc, a < dp / 86400) :
    ∃ t, enumerateIndices endT dp acc = acc ++ t ∧
      t.head? = some (dp / 86400) ∧
      t.getLast? = some (endT / 86400) ∧
      List.Chain' (· < ·) t := by
  by_cases hlt : endT - dp < 86400
  · have hdle : dp / 86400 ≤ endT / 86400 := Nat.div_le_div_right hle
    by_cases heq : endT / 86400 = dp / 86400
    · refine ⟨[dp / 86400], ?_, rfl, by simp [heq], by simp⟩
      have hmem : endT / 86400 ∈ acc ++ [dp / 86400] := by simp [heq]
      rw [enumerateIndices.eq_def]
      simp [hlt, hmem]
    · have hdlt : dp / 86400 < endT / 86400 := by omega
      have hmem : ¬ endT / 86400 ∈ acc ++ [dp / 86400] := by
        simp only [List.mem_append, List.mem_singleton]
        rintro (hin | hin)
        · exact absurd (hacc _ hin) (by omega)
        · exact heq hin
      refine ⟨[dp / 86400, endT / 86400], ?_, rfl, rfl, List.chain'_pair.mpr hdlt⟩
      rw [enumerateIndices.eq_def]
      simp [hlt, hmem]
  · have h2 : dp + 86400 ≤ endT := by omega
    have hdiv : (dp + 86400) / 86400 = dp / 86400 + 1 :=
      Nat.add_div_right dp (by norm_num)
    obtain ⟨t', ht', hh', hl', hc'⟩ :=
      enumerateIndices_spec endT (dp + 86400) (acc ++ [dp / 86400]) h2 (by
        intro a ha
        rw [hdiv]
        rcases List.mem_append.mp ha with h | h
        · exact Nat.lt_succ_of_lt (hacc a h)
        · simp only [List.mem_singleton] at h
          omega)
    have hne' : t' ≠ [] := by
      intro h0
      rw [h0] at hh'
      simp at hh'
    refine ⟨dp / 86400 :: t', ?_, rfl, ?_, ?_⟩
    · rw [enumerateIndices.eq_def]
      simp only [if_neg hlt]
      rw [ht']
      simp
    · cases t' with
      | nil => exact absurd rfl hne'
      | cons b bs => rw [List.getLast?_cons_cons]; exact hl'
    · rw [List.chain'_cons']
      refine ⟨?_, hc'⟩
      intro y hy
      rw [hh'] at hy
      simp only [Option.mem_some_iff] at hy
      omega
termination_by endT - dp
decreasing_by omega

/-- C2: for every pair of timestamps with start ≤ end, the index
enumeration (on day numbers, which are in bijection with the produced
`events-YYYYMMDD` names via `indexName`) yields a non-empty,
date-ascending, duplicate-free sequence whose first entry is start's day
and whose last entry is end's day; start and end on the same day yield
exactly one index. -/
theorem claim_C2_enumerate_indices (start endT : Nat) (h : start ≤ endT) :
    enumerateIndices endT start [] ≠ [] ∧
    List.Chain' (· < ·) (enumerateIndices endT start []) ∧
    (enumerateIndices endT start []).Nodup ∧
    (enumerateIndices endT start []).head? = some (start / 86400) ∧
    (enumerateIndices endT start []).getLast? = some (endT / 86400) ∧
    (start / 86400 = endT / 86400 → enumerateIndices endT start [] = [start / 86400]) := by
  obtain ⟨t, ht, hh, hl, hc⟩ := enumerateIndices_spec endT start [] h (by simp)
  rw [ht]
  simp only [List.nil_append]
  have hnodup : t.Nodup :=
    (List.chain'_iff_pairwise.mp hc).imp (fun hab => Nat.ne_of_lt hab)
  refine ⟨?_, hc, hnodup, hh, hl, ?_⟩
  · intro h0
    rw [h0] at hh
    simp at hh
  · intro heq
    have hs := Nat.div_add_mod start 86400
    have he := Nat.div_add_mod endT 86400
    have hm1 : start % 86400 < 86400 := Nat.mod_lt _ (by norm_num)
    have hm2 : endT % 86400 < 86400 := Nat.mod_lt _ (by norm_num)
    have hlt : endT - start < 86400 := by omega
    have hmem : endT / 86400 ∈ ([] : List Nat) ++ [start / 86400] := by simp [heq]
    have hres : enumerateIndices endT start [] = [start / 86400] := by
      rw [enumerateIndices.eq_def]
      simp [hlt, hmem, heq]
    rw [ht] at hres
    simpa using hres

/-- Witness for C2 at start = 0, end = 90000 (two calendar days). -/
theorem claim_C2_enumerate_indices_witness :
    0 ≤ 90000 ∧
    (enumerateIndices 90000 0 [] ≠ [] ∧
     List.Chain' (· < ·) (enumerateIndices 90000 0 []) ∧
     (enumerateIndices 90000 0 []).Nodup ∧
     (enumerateIndices 90000 0 []).head? = some (0 / 86400) ∧
     (enumerateIndices 90000 0 []).getLast? = some (90000 / 86400) ∧
     (0 / 86400 = 90000 / 86400 → enumerateIndices 90000 0 [] = [0 / 86400])) :=
  ⟨by decide, claim_C2_enumerate_indices 0 90000 (by decide)⟩


/-- Characterization of a successful run of the pagination loop started
at offset `off`: requests go out at offsets `off, off+100, …`, every page
before the last is non-empty, the loop stops exactly on the empty page,
and the accumulated events are the normalized pages in order. -/
theorem runQueryIndexLoop_ok (b : Nat → Except String (List event)) :
    ∀ (fuel off : Nat) (offs : List Nat) (evs : List event),
    runQueryIndexLoop b fuel off = (offs, some (.ok evs)) →
    ∃ n pages,
      offs = List.range' off (n + 1) docsPerSearch ∧
      List.Forall₂ (fun o p => b o = .ok p ∧ p ≠ [])
        (List.range' off n docsPerSearch) pages ∧
      b (off + n * docsPerSearch) = .ok [] ∧
      evs = (pages.map (fun p => p.map event.normalize)).flatten
  | 0, off, offs, evs => by
    intro h
    simp [runQueryIndexLoop] at h
  | fuel + 1, off, offs, evs => by
    intro h
    simp only [runQueryIndexLoop] at h
    split at h
    · simp at h
    · rename_i hits hb
      split at h
      · rename_i hz
        have hhits : hits = [] := List.length_eq_zero.mp hz
        simp only [Prod.mk.injEq] at h
        obtain ⟨h1, h2⟩ := h
        simp only [Option.some_inj, Except.ok.injEq] at h2
        refine ⟨0, [], ?_, by simp, ?_, by simp [← h2]⟩
        · rw [← h1]
          simp
        · rw [hhits] at hb
          simpa using hb
      · rename_i hz
        cases hr : runQueryIndexLoop b fuel (off + docsPerSearch) with
        | mk offs' res' =>
          rw [hr] at h
          simp only [Prod.mk.injEq] at h
          obtain ⟨hoffs, hres⟩ := h
          cases res' with
          | none => simp at hres
          | some x =>
            cases x with
            | error e => simp [Except.map] at hres
            | ok evs' =>
              simp only [Option.map_some', Option.some_inj, Except.map,
                Except.ok.injEq] at hres
              obtain ⟨n, pages, ho, hf, hl, he⟩ :=
                runQueryIndexLoop_ok b fuel (off + docsPerSearch) offs' evs' hr
              refine ⟨n + 1, hits :: pages, ?_, ?_, ?_, ?_⟩
              · rw [← hoffs, ho, List.range'_succ off (n + 1) docsPerSearch]
              · rw [List.range'_succ]
                exact List.Forall₂.cons
                  ⟨hb, fun hnil => hz (by simp [hnil])⟩ hf
              · have harith : off + docsPerSearch + n * docsPerSearch =
                    off + (n + 1) * docsPerSearch := by ring
                rw [← harith]
                exact hl
              · rw [← hres, he]
                simp

/-- A trivial decoded document for the C1 backend stub. -/
def c1page : event :=
  ⟨"", "", "", "", "", ⟨"", "", "", "", "", "", "", "", "", "", "", ""⟩⟩

/-- Backend stub for C1: pages of sizes 100, 100, 37 at offsets 0, 100,
200, and empty pages everywhere else. -/
def c1stub (off : Nat) : Except String (List event) :=
  if off = 0 then .ok (List.replicate 100 c1page)
  else if off = 100 then .ok (List.replicate 100 c1page)
  else if off = 200 then .ok (List.replicate 37 c1page)
  else .ok []

set_option maxRecDepth 40000 in
/-- C1: every successful pagination run issues requests at offsets
0, 100, 200, …, each page before the last is non-empty, the loop stops
exactly on the zero-hit page, and the accumulator receives the normalized
pages in order; on the [100,100,37,0] stub the run issues exactly the 4
requests at offsets 0,100,200,300 and appends exactly 237 events. -/
theorem claim_C1_pagination :
    (∀ (b : Nat → Except String (List event)) (fuel : Nat)
      (offs : List Nat) (evs : List event),
      runQueryIndex b fuel = (offs, some (.ok evs)) →
      ∃ n pages,
        offs = List.range' 0 (n + 1) docsPerSearch ∧
        List.Forall₂ (fun o p => b o = .ok p ∧ p ≠ [])
          (List.range' 0 n docsPerSearch) pages ∧
        b (n * docsPerSearch) = .ok [] ∧
        evs = (pages.map (fun p => p.map event.normalize)).flatten) ∧
    runQueryIndex c1stub 5 =
      ([0, 100, 200, 300], some (.ok (List.replicate 237 c1page))) ∧
    (List.replicate 237 c1page).length = 237 := by
  refine ⟨?_, rfl, by simp⟩
  intro b fuel offs evs h
  obtain ⟨n, pages, ho, hf, hl, he⟩ := runQueryIndexLoop_ok b fuel 0 offs evs h
  exact ⟨n, pages, ho, hf, by simpa using hl, he⟩

set_option maxRecDepth 40000 in
/-- Witness for C1: the general pagination characterization applied to
the [100,100,37,0] stub. -/
theorem claim_C1_pagination_witness :
    runQueryIndex c1stub 5 =
      ([0, 100, 200, 300], some (.ok (List.replicate 237 c1page))) ∧
    (∃ n pages,
      [0, 100, 200, 300] = List.range' 0 (n + 1) docsPerSearch ∧
      List.Forall₂ (fun o p => c1stub o = .ok p ∧ p ≠ [])
        (List.range' 0 n docsPerSearch) pages ∧
      c1stub (n * docsPerSearch) = .ok [] ∧
      List.replicate 237 c1page = (pages.map (fun p => p.map event.normalize)).flatten) :=
  ⟨rfl, claim_C1_pagination.1 c1stub 5 [0, 100, 200, 300]
    (List.replicate 237 c1page) rfl⟩

/-- C8: the per-index run loop processes the given indices strictly in
order; when every index fetch succeeds it visits all of them, and a fetch
error on any index stops the run right there — later indices are never
fetched and the error value is returned unchanged. -/
theorem claim_C8_error_aborts (f : Nat → Except String (List event)) :
    (∀ idxs : List Nat, (∀ j ∈ idxs, ∃ evs, f j = .ok evs) →
      (runIndices f idxs).1 = idxs) ∧
    (∀ (pre : List Nat) (i : Nat) (post : List Nat) (e : String),
      (∀ j ∈ pre, ∃ evs, f j = .ok evs) → f i = .error e →
      (runIndices f (pre ++ i :: post)).1 = pre ++ [i] ∧
      (runIndices f (pre ++ i :: post)).2 = .error e) := by
  constructor
  · intro idxs hok
    induction idxs with
    | nil => rfl
    | cons a as ih =>
      obtain ⟨evs, ha⟩ := hok a (by simp)
      have ih' := ih (fun j hj => hok j (by simp [hj]))
      simp [runIndices, ha, ih']
  · intro pre i post e hpre herr
    induction pre with
    | nil => simp [runIndices, herr]
    | cons a as ih =>
      obtain ⟨evs, ha⟩ := hpre a (by simp)
      have ih' := ih (fun j hj => hpre j (by simp [hj]))
      simp [runIndices, ha, ih'.1, ih'.2, Except.map]

/-- Backend stub for the C8 witness: errors on index 1, succeeds with an
empty result elsewhere. -/
def c8stub (i : Nat) : Except String (List event) :=
  if i = 1 then .error "boom" else .ok []

/-- Witness for C8: on indices [0, 1, 2, 3] with an error at index 1, the
run fetches exactly [0, 1] and surfaces "boom" unchanged. -/
theorem claim_C8_error_aborts_witness :
    (∀ j ∈ [0], ∃ evs, c8stub j = .ok evs) ∧
    c8stub 1 = .error "boom" ∧
    ((runIndices c8stub ([0] ++ 1 :: [2, 3])).1 = [0] ++ [1] ∧
     (runIndices c8stub ([0] ++ 1 :: [2, 3])).2 = .error "boom") :=
  ⟨fun j hj => ⟨[], by rw [List.mem_singleton] at hj; rw [hj]; rfl⟩, rfl,
   (claim_C8_error_aborts c8stub).2 [0] 1 [2, 3] "boom"
     (fun j hj => ⟨[], by rw [List.mem_singleton] at hj; rw [hj]; rfl⟩) rfl⟩

end Mozdefevents
